import Mathlib

/-!
Verification development for the sparse-tensor module of the GSS_Inference
repository (`Modules/st.py`).  The Python class `SparseTensor` and the two
free functions `compute_Lambdas` and `compute_Lambdas_dSIR` are embedded
shallowly below: topology construction (`edgeList`, `adjOf`, `adjList`,
`degreeOf`, `offsetOf`, `idxRange`, `idxList`), the accessors
(`get_idx_ij`, `get_ij`, `get_neigh_i`) with an explicit model of the
Python exceptions they raise, the constructor (`initE`), and the final
per-entry values produced by the two Lambda builders (`lamFinal`,
`dsirFinal`).  Rates are modelled as rationals.
-/

namespace GSS

/-- A contact event `(i, j, t, lambda_ij(t))` as in the docstrings of
`st.py`: sender `i`, receiver `j`, time `t`, transmission rate `lam`. -/
structure Contact where
  i : Nat
  j : Nat
  t : Nat
  lam : ℚ
deriving DecidableEq

/-- Lexicographic (row-wise) order on directed edges; this is the order in
which `np.unique(..., axis=0)` returns its rows in `SparseTensor.init`. -/
def pairLe (p q : Nat × Nat) : Prop :=
  p.1 < q.1 ∨ (p.1 = q.1 ∧ p.2 ≤ q.2)

instance pairLe.decRel : DecidableRel pairLe := fun _ _ => by
  unfold pairLe; infer_instance

/-- Insertion step of the lexicographic sort used to model `np.unique`. -/
def insertPair (p : Nat × Nat) : List (Nat × Nat) → List (Nat × Nat)
  | [] => [p]
  | q :: l => if pairLe p q then p :: q :: l else q :: insertPair p l

/-- Insertion sort by `pairLe`; models the sorting performed by
`np.unique(..., axis=0)` on the array of node pairs. -/
def sortPairs : List (Nat × Nat) → List (Nat × Nat)
  | [] => []
  | p :: l => insertPair p (sortPairs l)

/-- The multiset of node pairs taken from the contacts together with their
flips: models `np.concatenate((edge_list, np.flip(edge_list, 1)))` from
`SparseTensor.init` (lines 41-46 of `st.py`).  Deduplication of either half
before concatenating does not change the sorted deduplicated result. -/
def symPairs (contacts : List Contact) : List (Nat × Nat) :=
  contacts.map (fun c => (c.i, c.j)) ++ contacts.map (fun c => (c.j, c.i))

/-- `edge_list` of `SparseTensor.init`: the sorted, deduplicated,
symmetrized list of node pairs occurring in the contacts (lines 38-46). -/
def edgeList (contacts : List Contact) : List (Nat × Nat) :=
  (sortPairs (symPairs contacts)).dedup

/-- `num_direct_edges = len(edge_list)` (line 47). -/
def numDirectEdges (contacts : List Contact) : Nat :=
  (edgeList contacts).length

/-- Content of `adj_list[a]` after the population loop
`for e in edge_list: adj_list[e[0]].append(e[1])` (lines 50-51): the second
components of the edges whose first component is `a`, in `edge_list`
order. -/
def adjOf (contacts : List Contact) (a : Nat) : List Nat :=
  ((edgeList contacts).filter (fun e => e.1 = a)).map (fun e => e.2)

/-- The full `adj_list` field: one bucket per node `0..N-1`. -/
def adjList (N : Nat) (contacts : List Contact) : List (List Nat) :=
  (List.range N).map (adjOf contacts)

/-- `degree[a] = len(adj_list[a])` (line 52). -/
def degreeOf (contacts : List Contact) (a : Nat) : Nat :=
  (adjOf contacts a).length

/-- The running counter `c` of the `idx_list` loop (lines 55-58) when node
`j` is reached: the sum of the degrees of the nodes before `j`. -/
def offsetOf (contacts : List Contact) (j : Nat) : Nat :=
  ((List.range j).map (degreeOf contacts)).sum

/-- `idx_list[j] = np.arange(c, c + degree[j])` (line 57). -/
def idxRange (contacts : List Contact) (j : Nat) : List Nat :=
  List.range' (offsetOf contacts j) (degreeOf contacts j)

/-- The full `idx_list` field: one index range per node `0..N-1`. -/
def idxList (N : Nat) (contacts : List Contact) : List (List Nat) :=
  (List.range N).map (idxRange contacts)

/-- The Python exceptions the module can raise.  `list.index` on a missing
element raises `ValueError`; sequence indexing out of range raises
`IndexError`; `1/0` raises `ZeroDivisionError`.  Of these, only
`IndexError` is a subclass of Python's `LookupError`. -/
inductive PyErr where
  | valueError
  | indexError
  | zeroDivisionError
deriving DecidableEq

/-- Whether the exception is (a subclass of) Python's `LookupError`.
In CPython, `IndexError` and `KeyError` derive from `LookupError`, while
`ValueError` and `ZeroDivisionError` do not. -/
def PyErr.isLookupError : PyErr → Bool
  | .indexError => true
  | _ => false

/-- `SparseTensor.get_idx_ij(i, j)` (lines 81-94):
`idx_i = adj_list[j].index(i); idx = idx_list[j][idx_i]`.
Accessing `adj_list[j]` with `j ≥ N` raises `IndexError`; `list.index`
returns the position of the first occurrence of `i` (`findIdx`) when `i`
is present and raises `ValueError` otherwise. -/
def get_idx_ij (N : Nat) (contacts : List Contact) (i j : Nat) :
    Except PyErr Nat :=
  if j < N then
    if i ∈ adjOf contacts j then
      .ok ((idxRange contacts j).getD
        ((adjOf contacts j).findIdx (fun x => x = i)) 0)
    else .error .valueError
  else .error .indexError

/-- `SparseTensor.get_ij(i, j)` (lines 96-109): look up the slot index and
return `values[idx]`.  The values array is abstracted as a list of matrix
objects `α`; a stale slot index out of range of `values` raises
`IndexError`. -/
def get_ij {α : Type} [Inhabited α] (N : Nat) (contacts : List Contact)
    (values : List α) (i j : Nat) : Except PyErr α :=
  match get_idx_ij N contacts i j with
  | .ok idx =>
      if idx < values.length then .ok (values.getD idx default)
      else .error .indexError
  | .error e => .error e

/-- `SparseTensor.get_neigh_i(i)` (lines 111-120):
`values[idx_list[i]]`, i.e. the stack of the matrices at the slots
`idx_list[i]`, in that order.  `idx_list[i]` with `i ≥ N` raises
`IndexError`, as does fancy indexing with an out-of-range slot. -/
def get_neigh_i {α : Type} [Inhabited α] (N : Nat) (contacts : List Contact)
    (values : List α) (i : Nat) : Except PyErr (List α) :=
  if i < N then
    if (idxRange contacts i).all (fun k => k < values.length) then
      .ok ((idxRange contacts i).map (fun k => values.getD k default))
    else .error .indexError
  else .error .indexError

/-- Effect on the tensor's flat `values` storage of an in-place write into
the stack returned by `get_neigh_i`.  `values[idx_list[i]]` (line 120)
indexes with the integer array `idx_list[i]` — NumPy advanced indexing —
which returns a fresh copy of the selected matrices, not a view into
`values`; mutating an entry of that copy therefore leaves the tensor's
`values` unchanged.  (By contrast, `values[idx]` in `get_ij`, line 109, is
basic indexing and returns a view: an in-place write through it updates
slot `idx` of `values`, modelled as `values.set idx`.) -/
def valuesAfterNeighWrite {α : Type} (values : List α) (pos : Nat)
    (mNew : α) : List α :=
  values

/-- The record of fields set by `SparseTensor.init`. -/
structure SparseTensor where
  N : Nat
  T : Int
  adj_list : List (List Nat)
  idx_list : List (List Nat)
  degree : List Nat
  num_direct_edges : Nat
  values : List (List (List ℚ))
deriving DecidableEq

/-- `SparseTensor.init(N, T, contacts)` (lines 21-63) with its possible
exceptions.  The adjacency loop `adj_list[e[0]].append(e[1])` raises
`IndexError` as soon as some edge's first node is `≥ N`; then the fill
value `1/((T+2)*(T+2))` raises `ZeroDivisionError` when `T = -2`; then
`np.full` with a negative dimension `T+2 < 0` raises `ValueError`.
Otherwise construction succeeds with no validation of `N` or `T`. -/
def initE (N : Nat) (T : Int) (contacts : List Contact) :
    Except PyErr SparseTensor :=
  if (edgeList contacts).all (fun e => e.1 < N) then
    if T + 2 = 0 then .error .zeroDivisionError
    else if T + 2 < 0 then .error .valueError
    else
      .ok { N := N, T := T,
            adj_list := adjList N contacts,
            idx_list := idxList N contacts,
            degree := (adjList N contacts).map List.length,
            num_direct_edges := numDirectEdges contacts,
            values := List.replicate (numDirectEdges contacts)
              (List.replicate (T + 2).toNat
                (List.replicate (T + 2).toNat
                  (1 / (((T : ℚ) + 2) * ((T : ℚ) + 2))))) }
  else .error .indexError

/-- The slot of edge `(i, j)` if it exists (successful `get_idx_ij`). -/
def slotOf (N : Nat) (topo : List Contact) (i j : Nat) : Option Nat :=
  (get_idx_ij N topo i j).toOption

/-- Value of column `c` of the matrix at slot `e` after the write loop of
the Lambda builders (lines 153-157 resp. 189-192): `values` was reset to 0
and each contact `cc` writes `cc.lam` into the whole column `cc.t + off` of
the matrix of edge `(cc.i, cc.j)` (`off = 2` for `Lambda1`, `off = 1` for
`Lambda0`); a later contact hitting the same column overwrites an earlier
one. -/
def writeVal (N : Nat) (topo contacts : List Contact) (off e c : Nat) : ℚ :=
  contacts.foldl
    (fun acc cc =>
      if slotOf N topo cc.i cc.j = some e ∧ cc.t + off = c then cc.lam
      else acc)
    0

/-- Entry `(r, c)` of the matrix at slot `e` after the triangular zeroing
`values[:, a, b] = 0` for `(a, b) = np.tril_indices(n_dim, k)` (lines
159-164): entries with `c ≤ r + k` are zeroed (`k = 1` for `Lambda1`,
`k = 0` for `Lambda0`). -/
def preLam (N : Nat) (topo contacts : List Contact) (k off e r c : Nat) : ℚ :=
  if c ≤ r + k then 0 else writeVal N topo contacts off e c

/-- Cumulative product along a row after the `1 - x` step: entry `c` of
`np.cumprod(1 - row, axis=2)` given the pre-product row `f` (lines
166-172). -/
def cumRow (f : Nat → ℚ) (c : Nat) : ℚ :=
  ((List.range (c + 1)).map (fun x => 1 - f x)).prod

/-- Final entry `(e, r, c)` of a Lambda tensor after `compute_Lambdas`
(lines 142-172).  `k = 1, off = 2` gives `Lambda1`; `k = 0, off = 1` gives
`Lambda0`. -/
def lamFinal (N : Nat) (topo contacts : List Contact) (k off e r c : Nat) : ℚ :=
  cumRow (preLam N topo contacts k off e r) c

/-- Entry `c` of row `tj` of the infectivity mask (lines 202-205):
`([1]*(tj+lead) + mask + [0]*(Tp2-len(mask)-tj-lead))[:Tp2]`, i.e. `lead`
leading ones starting at the row index, then the mask coefficients, then
zeros.  `Mask1` uses `lead = tj + 2`, `Mask0` uses `lead = tj + 1`. -/
def maskRow (m : List ℚ) (lead c : Nat) : ℚ :=
  if c < lead then 1 else m.getD (c - lead) 0

/-- Entry `(r, c)` of the matrix at slot `e` after the triangular zeroing
and the element-wise mask multiplication of `compute_Lambdas_dSIR` (lines
194-208). -/
def preDSIR (N : Nat) (topo contacts : List Contact) (m : List ℚ)
    (k off e r c : Nat) : ℚ :=
  preLam N topo contacts k off e r c * maskRow m (r + off) c

/-- Final entry `(e, r, c)` of a Lambda tensor after
`compute_Lambdas_dSIR` (lines 176-216).  `k = 1, off = 2` gives `Lambda1`;
`k = 0, off = 1` gives `Lambda0`. -/
def dsirFinal (N : Nat) (topo contacts : List Contact) (m : List ℚ)
    (k off e r c : Nat) : ℚ :=
  cumRow (preDSIR N topo contacts m k off e r) c

/-- `Lambda1` final entries under `compute_Lambdas`. -/
def lambda1Final (N : Nat) (topo contacts : List Contact) (e r c : Nat) : ℚ :=
  lamFinal N topo contacts 1 2 e r c

/-- `Lambda0` final entries under `compute_Lambdas`. -/
def lambda0Final (N : Nat) (topo contacts : List Contact) (e r c : Nat) : ℚ :=
  lamFinal N topo contacts 0 1 e r c

/-- `Lambda1` final entries under `compute_Lambdas_dSIR` with mask `m`. -/
def dsir1Final (N : Nat) (topo contacts : List Contact) (m : List ℚ)
    (e r c : Nat) : ℚ :=
  dsirFinal N topo contacts m 1 2 e r c

/-- `Lambda0` final entries under `compute_Lambdas_dSIR` with mask `m`. -/
def dsir0Final (N : Nat) (topo contacts : List Contact) (m : List ℚ)
    (e r c : Nat) : ℚ :=
  dsirFinal N topo contacts m 0 1 e r c

/-- Strict lexicographic order on edges: `pairLe` together with
distinctness.  The rows of `edge_list` are strictly increasing in this
order, being sorted and deduplicated. -/
def pairLt (p q : Nat × Nat) : Prop :=
  pairLe p q ∧ p ≠ q

/-- The raw (sender, receiver) pairs of a contact list, in order. -/
def contactPairs (contacts : List Contact) : List (Nat × Nat) :=
  contacts.map (fun c => (c.i, c.j))

/-- The contact list of the worked scenario: `N = 2`, `T = 1`,
`contacts = [(0, 1, 0, 0.5)]`. -/
def scenarioContacts : List Contact :=
  [⟨0, 1, 0, 1/2⟩]

end GSS

namespace GSS

theorem cumRow_succ (f : Nat → ℚ) (c : Nat) :
    cumRow f (c + 1) = cumRow f c * (1 - f (c + 1)) := by
  unfold cumRow
  rw [List.range_succ, List.map_append, List.prod_append]
  simp

theorem cumRow_eq_one {f : Nat → ℚ} {c : Nat} (h : ∀ x, x ≤ c → f x = 0) :
    cumRow f c = 1 := by
  unfold cumRow
  apply List.prod_eq_one
  intro x hx
  simp only [List.mem_map, List.mem_range, Nat.lt_succ_iff] at hx
  obtain ⟨y, hy, rfl⟩ := hx
  rw [h y hy]
  ring

/-- C1: for `N = 2`, `T = 1`, `contacts = [(0, 1, 0, 0.5)]`, the
constructed topology has exactly the directed edges `(0, 1)` and `(1, 0)`
(adjacency `[[1], [0]]`), edge `(0, 1)` is stored at slot 1, and after
`compute_Lambdas` the first row (length `T + 2 = 3`) of the `(0, 1)`
matrix of `Lambda1` is `[1, 1, 0.5]` and that of `Lambda0` is
`[1, 0.5, 0.5]`. -/
theorem claim_C1 :
    edgeList scenarioContacts = [(0, 1), (1, 0)]
    ∧ adjList 2 scenarioContacts = [[1], [0]]
    ∧ get_idx_ij 2 scenarioContacts 0 1 = .ok 1
    ∧ (List.range 3).map (lambda1Final 2 scenarioContacts scenarioContacts 1 0)
        = [1, 1, 1/2]
    ∧ (List.range 3).map (lambda0Final 2 scenarioContacts scenarioContacts 1 0)
        = [1, 1/2, 1/2] := by
  refine ⟨?_, ?_, ?_, ?_, ?_⟩ <;> with_unfolding_all rfl

/-- On the scenario input, whose only contact does lie on an existing
edge (slot 1), `compute_Lambdas_dSIR` with the empty mask gives `1` at
entry `(1, 0, 2)` of `Lambda1` while `compute_Lambdas` gives `0.5`
there: the empty mask is not equivalent to no masking. -/
theorem claim_C2_counterexample :
    slotOf 2 scenarioContacts 0 1 = some 1
    ∧ dsir1Final 2 scenarioContacts scenarioContacts [] 1 0 2 = 1
    ∧ lambda1Final 2 scenarioContacts scenarioContacts 1 0 2 = 1/2 := by
  refine ⟨?_, ?_, ?_⟩ <;> with_unfolding_all rfl

theorem preDSIR_nil (N : Nat) (topo contacts : List Contact) (k e r c : Nat) :
    preDSIR N topo contacts [] k (k + 1) e r c = 0 := by
  unfold preDSIR preLam maskRow
  by_cases h : c ≤ r + k
  · simp [h]
  · have h2 : ¬ c < r + (k + 1) := by omega
    simp [h, h2]

/-- C2 (amended): with an empty mask sequence, the mask rows are `1`
exactly on the already-zeroed triangular region and `0` beyond it, so
`compute_Lambdas_dSIR` zeroes every pre-product entry and both final
tensors are identically `1` — not, in general, the output of
`compute_Lambdas`. -/
theorem claim_C2 (N : Nat) (topo contacts : List Contact) (e r c : Nat) :
    dsir1Final N topo contacts [] e r c = 1
    ∧ dsir0Final N topo contacts [] e r c = 1 := by
  constructor
  · exact cumRow_eq_one (fun x _ => preDSIR_nil N topo contacts 1 e r x)
  · exact cumRow_eq_one (fun x _ => preDSIR_nil N topo contacts 0 e r x)

/-- Construction with `N = 0` (and with `T = -1 < 0`) succeeds silently,
producing an empty resp. degenerate tensor, instead of failing with a
validation error. -/
theorem claim_C9_counterexample :
    initE 0 0 [] = .ok ⟨0, 0, [], [], [], 0, []⟩
    ∧ (initE 2 (-1) []).isOk = true := by
  refine ⟨?_, ?_⟩ <;> with_unfolding_all rfl

/-- C9 (amended): construction performs no validation of `N` or `T`:
whenever the contacts mention only nodes below `N` and `T ≥ -1`, `init`
succeeds — in particular for `N = 0` (empty tensor) and for the negative
horizon `T = -1`.  (Failures occur only incidentally: `T = -2` divides by
zero, `T ≤ -3` makes a negative dimension, and a contact node `≥ N` makes
an out-of-range adjacency access.) -/
theorem claim_C9 (N : Nat) (T : Int) (contacts : List Contact)
    (Hnodes : ∀ e ∈ edgeList contacts, e.1 < N) (HT : -1 ≤ T) :
    (initE N T contacts).isOk = true := by
  unfold initE
  have hall : (edgeList contacts).all (fun e => e.1 < N) = true := by
    rw [List.all_eq_true]
    intro e he
    exact decide_eq_true (Hnodes e he)
  rw [if_pos hall]
  have h2 : ¬ T + 2 = 0 := by omega
  have h3 : ¬ T + 2 < 0 := by omega
  rw [if_neg h2, if_neg h3]
  rfl

end GSS

namespace GSS

/-- C4: in the final values of either Lambda builder, every entry of the
pre-infection-horizon region is exactly 1: the triangular zeroing puts 0
there, `1 - x` turns the region into ones, and a cumulative product of
ones is one.  The region is `r > c - offset` with offset `+1` for
`Lambda1` (i.e. `c ≤ r`) and offset `0` for `Lambda0` (i.e. `c < r`). -/
theorem claim_C4 (N : Nat) (topo contacts : List Contact) (m : List ℚ)
    (e r c : Nat) :
    (c ≤ r → lambda1Final N topo contacts e r c = 1
      ∧ dsir1Final N topo contacts m e r c = 1)
    ∧ (c < r → lambda0Final N topo contacts e r c = 1
      ∧ dsir0Final N topo contacts m e r c = 1) := by
  constructor
  · intro h
    constructor
    · unfold lambda1Final lamFinal
      apply cumRow_eq_one
      intro x hx
      unfold preLam
      rw [if_pos (by omega)]
    · unfold dsir1Final dsirFinal
      apply cumRow_eq_one
      intro x hx
      unfold preDSIR preLam
      rw [if_pos (by omega), zero_mul]
  · intro h
    constructor
    · unfold lambda0Final lamFinal
      apply cumRow_eq_one
      intro x hx
      unfold preLam
      rw [if_pos (by omega)]
    · unfold dsir0Final dsirFinal
      apply cumRow_eq_one
      intro x hx
      unfold preDSIR preLam
      rw [if_pos (by omega), zero_mul]

theorem claim_C4_witness :
    ((1 : Nat) ≤ 2
      ∧ lambda1Final 2 scenarioContacts scenarioContacts 1 2 1 = 1
      ∧ dsir1Final 2 scenarioContacts scenarioContacts [1/2] 1 2 1 = 1)
    ∧ ((1 : Nat) < 2
      ∧ lambda0Final 2 scenarioContacts scenarioContacts 1 2 1 = 1
      ∧ dsir0Final 2 scenarioContacts scenarioContacts [1/2] 1 2 1 = 1) :=
  ⟨⟨by omega,
    (claim_C4 2 scenarioContacts scenarioContacts [1/2] 1 2 1).1 (by omega)⟩,
   ⟨by omega,
    (claim_C4 2 scenarioContacts scenarioContacts [1/2] 1 2 1).2 (by omega)⟩⟩

theorem foldl_lam_bounds (N : Nat) (topo : List Contact) (off e c : Nat) :
    ∀ (l : List Contact) (a : ℚ), (∀ cc ∈ l, 0 ≤ cc.lam ∧ cc.lam ≤ 1) →
      0 ≤ a → a ≤ 1 →
      0 ≤ l.foldl (fun acc cc =>
            if slotOf N topo cc.i cc.j = some e ∧ cc.t + off = c then cc.lam
            else acc) a
      ∧ l.foldl (fun acc cc =>
            if slotOf N topo cc.i cc.j = some e ∧ cc.t + off = c then cc.lam
            else acc) a ≤ 1 := by
  intro l
  induction l with
  | nil => exact fun a _ h0 h1 => ⟨h0, h1⟩
  | cons cc tl ih =>
      intro a h h0 h1
      simp only [List.foldl_cons]
      by_cases hc : slotOf N topo cc.i cc.j = some e ∧ cc.t + off = c
      · rw [if_pos hc]
        exact ih cc.lam (fun x hx => h x (List.mem_cons_of_mem _ hx))
          (h cc (List.mem_cons_self _ _)).1 (h cc (List.mem_cons_self _ _)).2
      · rw [if_neg hc]
        exact ih a (fun x hx => h x (List.mem_cons_of_mem _ hx)) h0 h1

theorem writeVal_bounds (N : Nat) (topo contacts : List Contact)
    (off e c : Nat) (h : ∀ cc ∈ contacts, 0 ≤ cc.lam ∧ cc.lam ≤ 1) :
    0 ≤ writeVal N topo contacts off e c
    ∧ writeVal N topo contacts off e c ≤ 1 :=
  foldl_lam_bounds N topo off e c contacts 0 h le_rfl zero_le_one

theorem preLam_bounds (N : Nat) (topo contacts : List Contact)
    (k off e r c : Nat) (h : ∀ cc ∈ contacts, 0 ≤ cc.lam ∧ cc.lam ≤ 1) :
    0 ≤ preLam N topo contacts k off e r c
    ∧ preLam N topo contacts k off e r c ≤ 1 := by
  unfold preLam
  by_cases hc : c ≤ r + k
  · rw [if_pos hc]; exact ⟨le_rfl, zero_le_one⟩
  · rw [if_neg hc]; exact writeVal_bounds N topo contacts off e c h

theorem getD_bounds {m : List ℚ} (hm : ∀ x ∈ m, 0 ≤ x ∧ x ≤ 1) (n : Nat) :
    0 ≤ m.getD n 0 ∧ m.getD n 0 ≤ 1 := by
  by_cases h : n < m.length
  · rw [List.getD_eq_getElem m 0 h]
    exact hm _ (List.getElem_mem h)
  · rw [List.getD_eq_default m 0 (by omega)]
    exact ⟨le_rfl, zero_le_one⟩

theorem maskRow_bounds {m : List ℚ} (hm : ∀ x ∈ m, 0 ≤ x ∧ x ≤ 1)
    (lead c : Nat) : 0 ≤ maskRow m lead c ∧ maskRow m lead c ≤ 1 := by
  unfold maskRow
  by_cases h : c < lead
  · rw [if_pos h]; exact ⟨zero_le_one, le_rfl⟩
  · rw [if_neg h]; exact getD_bounds hm (c - lead)

theorem preDSIR_bounds (N : Nat) (topo contacts : List Contact) {m : List ℚ}
    (k off e r c : Nat) (h : ∀ cc ∈ contacts, 0 ≤ cc.lam ∧ cc.lam ≤ 1)
    (hm : ∀ x ∈ m, 0 ≤ x ∧ x ≤ 1) :
    0 ≤ preDSIR N topo contacts m k off e r c
    ∧ preDSIR N topo contacts m k off e r c ≤ 1 := by
  unfold preDSIR
  obtain ⟨h0, h1⟩ := preLam_bounds N topo contacts k off e r c h
  obtain ⟨g0, g1⟩ := maskRow_bounds hm (r + off) c
  exact ⟨mul_nonneg h0 g0, mul_le_one₀ h1 g0 g1⟩

theorem cumRow_nonneg {f : Nat → ℚ} (h : ∀ x, 0 ≤ f x ∧ f x ≤ 1) (c : Nat) :
    0 ≤ cumRow f c := by
  induction c with
  | zero =>
      have h0 : cumRow f 0 = 1 - f 0 := by
        unfold cumRow
        rw [show List.range 1 = [0] from rfl]
        simp
      rw [h0]
      linarith [(h 0).2]
  | succ n ih =>
      rw [cumRow_succ]
      exact mul_nonneg ih (by linarith [(h (n + 1)).2])

theorem cumRow_step {f : Nat → ℚ} (h : ∀ x, 0 ≤ f x ∧ f x ≤ 1) (c : Nat) :
    cumRow f (c + 1) ≤ cumRow f c := by
  rw [cumRow_succ]
  exact mul_le_of_le_one_right (cumRow_nonneg h c) (by linarith [(h (c + 1)).1])

/-- C6: when every contact rate lies in `[0, 1]` (and, for the masked
variant, every mask coefficient lies in `[0, 1]`), every row of every edge
matrix of both final Lambda tensors, under either builder, is
non-increasing from left to right: each further column multiplies by a
factor `1 - x ∈ [0, 1]`. -/
theorem claim_C6 (N : Nat) (topo contacts : List Contact) (m : List ℚ)
    (Hlam : ∀ cc ∈ contacts, 0 ≤ cc.lam ∧ cc.lam ≤ 1)
    (Hm : ∀ x ∈ m, 0 ≤ x ∧ x ≤ 1) (e r c : Nat) :
    lambda1Final N topo contacts e r (c + 1) ≤ lambda1Final N topo contacts e r c
    ∧ lambda0Final N topo contacts e r (c + 1) ≤ lambda0Final N topo contacts e r c
    ∧ dsir1Final N topo contacts m e r (c + 1) ≤ dsir1Final N topo contacts m e r c
    ∧ dsir0Final N topo contacts m e r (c + 1) ≤ dsir0Final N topo contacts m e r c := by
  unfold lambda1Final lambda0Final dsir1Final dsir0Final lamFinal dsirFinal
  exact ⟨cumRow_step (fun x => preLam_bounds N topo contacts 1 2 e r x Hlam) c,
    cumRow_step (fun x => preLam_bounds N topo contacts 0 1 e r x Hlam) c,
    cumRow_step (fun x => preDSIR_bounds N topo contacts 1 2 e r x Hlam Hm) c,
    cumRow_step (fun x => preDSIR_bounds N topo contacts 0 1 e r x Hlam Hm) c⟩

theorem claim_C6_witness :
    lambda1Final 2 scenarioContacts scenarioContacts 1 0 3
      ≤ lambda1Final 2 scenarioContacts scenarioContacts 1 0 2
    ∧ lambda0Final 2 scenarioContacts scenarioContacts 1 0 3
      ≤ lambda0Final 2 scenarioContacts scenarioContacts 1 0 2
    ∧ dsir1Final 2 scenarioContacts scenarioContacts [1/2] 1 0 3
      ≤ dsir1Final 2 scenarioContacts scenarioContacts [1/2] 1 0 2
    ∧ dsir0Final 2 scenarioContacts scenarioContacts [1/2] 1 0 3
      ≤ dsir0Final 2 scenarioContacts scenarioContacts [1/2] 1 0 2 :=
  claim_C6 2 scenarioContacts scenarioContacts [1/2]
    (by simp [scenarioContacts]; norm_num)
    (by intro x hx; rw [List.mem_singleton] at hx; rw [hx]; norm_num)
    1 0 2

end GSS

namespace GSS

theorem claim_C9_witness : (initE 3 5 scenarioContacts).isOk = true :=
  claim_C9 3 5 scenarioContacts (by decide) (by norm_num)

theorem mem_insertPair {x p : Nat × Nat} {l : List (Nat × Nat)} :
    x ∈ insertPair p l ↔ x = p ∨ x ∈ l := by
  induction l with
  | nil => simp [insertPair]
  | cons q tl ih =>
      unfold insertPair
      by_cases h : pairLe p q
      · rw [if_pos h]
        simp [List.mem_cons]
      · rw [if_neg h]
        simp only [List.mem_cons, ih]
        tauto

theorem mem_sortPairs {x : Nat × Nat} {l : List (Nat × Nat)} :
    x ∈ sortPairs l ↔ x ∈ l := by
  induction l with
  | nil => simp [sortPairs]
  | cons p tl ih =>
      unfold sortPairs
      rw [mem_insertPair]
      simp [ih]

theorem mem_edgeList {x : Nat × Nat} {contacts : List Contact} :
    x ∈ edgeList contacts ↔ x ∈ symPairs contacts := by
  unfold edgeList
  rw [List.mem_dedup, mem_sortPairs]

theorem mem_adjOf {contacts : List Contact} {a b : Nat} :
    b ∈ adjOf contacts a ↔ (a, b) ∈ edgeList contacts := by
  unfold adjOf
  simp only [List.mem_map, List.mem_filter]
  constructor
  · rintro ⟨⟨e1, e2⟩, ⟨he, hfst⟩, rfl⟩
    have h1 : e1 = a := of_decide_eq_true hfst
    subst h1
    exact he
  · intro h
    exact ⟨(a, b), ⟨h, by simp⟩, rfl⟩

theorem adjList_getD (N : Nat) (contacts : List Contact) {j : Nat}
    (hj : j < N) : (adjList N contacts).getD j [] = adjOf contacts j := by
  unfold adjList
  rw [List.getD_eq_getElem _ _ (by simpa using hj), List.getElem_map,
    List.getElem_range]

/-- C7: construction symmetrizes the topology: for every contact with node
pair `(i, j)` (both nodes in range), the directed edges in both directions
exist — `i` is among the senders of `j` and `j` among the senders of
`i`. -/
theorem claim_C7 (N : Nat) (contacts : List Contact) (cc : Contact)
    (Hmem : cc ∈ contacts) (Hi : cc.i < N) (Hj : cc.j < N) :
    cc.i ∈ (adjList N contacts).getD cc.j []
    ∧ cc.j ∈ (adjList N contacts).getD cc.i [] := by
  rw [adjList_getD N contacts Hj, adjList_getD N contacts Hi]
  constructor
  · rw [mem_adjOf, mem_edgeList]
    unfold symPairs
    exact List.mem_append_right _ (List.mem_map.mpr ⟨cc, Hmem, rfl⟩)
  · rw [mem_adjOf, mem_edgeList]
    unfold symPairs
    exact List.mem_append_left _ (List.mem_map.mpr ⟨cc, Hmem, rfl⟩)

theorem claim_C7_witness :
    (⟨0, 1, 0, 1/2⟩ : Contact) ∈ scenarioContacts
    ∧ (0 : Nat) < 2 ∧ (1 : Nat) < 2
    ∧ 0 ∈ (adjList 2 scenarioContacts).getD 1 []
    ∧ 1 ∈ (adjList 2 scenarioContacts).getD 0 [] :=
  ⟨by simp [scenarioContacts], by omega, by omega,
   (claim_C7 2 scenarioContacts ⟨0, 1, 0, 1/2⟩ (by simp [scenarioContacts])
     (by decide) (by decide)).1,
   (claim_C7 2 scenarioContacts ⟨0, 1, 0, 1/2⟩ (by simp [scenarioContacts])
     (by decide) (by decide)).2⟩

end GSS

namespace GSS

theorem sum_map_add (g h : Nat → Nat) (l : List Nat) :
    (l.map (fun a => g a + h a)).sum = (l.map g).sum + (l.map h).sum := by
  induction l with
  | nil => simp
  | cons x tl ih => simp only [List.map_cons, List.sum_cons, ih]; omega

theorem sum_indicator {N v : Nat} (h : v < N) :
    ((List.range N).map (fun a => if v = a then 1 else 0)).sum = 1 := by
  induction N with
  | zero => omega
  | succ n ih =>
      rw [List.range_succ, List.map_append, List.sum_append]
      by_cases hv : v = n
      · subst hv
        have hz : ((List.range v).map (fun a => if v = a then 1 else 0)).sum
            = 0 := by
          apply List.sum_eq_zero
          intro x hx
          simp only [List.mem_map, List.mem_range] at hx
          obtain ⟨a, ha, rfl⟩ := hx
          rw [if_neg (by omega)]
        simp [hz]
      · have hv2 : v < n := by omega
        simp [ih hv2, hv]

theorem sum_filter_length (N : Nat) :
    ∀ l : List (Nat × Nat), (∀ e ∈ l, e.1 < N) →
      ((List.range N).map
        (fun a => ((l.filter (fun e => e.1 = a)).length))).sum = l.length := by
  intro l
  induction l with
  | nil => intro _; simp
  | cons x tl ih =>
      intro h
      have hx : x.1 < N := h x (List.mem_cons_self _ _)
      have htl := ih (fun e he => h e (List.mem_cons_of_mem _ he))
      have hmap : (List.range N).map
            (fun a => (((x :: tl).filter (fun e => e.1 = a)).length))
          = (List.range N).map
            (fun a => (if x.1 = a then 1 else 0)
              + ((tl.filter (fun e => e.1 = a)).length)) := by
        apply List.map_congr_left
        intro a _
        by_cases hxa : x.1 = a
        · rw [List.filter_cons_of_pos (by simpa using hxa), if_pos hxa,
            List.length_cons]
          omega
        · rw [List.filter_cons_of_neg (by simpa using hxa), if_neg hxa]
          omega
      rw [hmap, sum_map_add, sum_indicator hx, htl, List.length_cons]
      omega

theorem degreeOf_eq_filter (contacts : List Contact) (a : Nat) :
    degreeOf contacts a
      = ((edgeList contacts).filter (fun e => e.1 = a)).length := by
  unfold degreeOf adjOf
  rw [List.length_map]

theorem sum_degree_eq (N : Nat) (contacts : List Contact)
    (H : ∀ e ∈ edgeList contacts, e.1 < N) :
    ((List.range N).map (degreeOf contacts)).sum = numDirectEdges contacts := by
  unfold numDirectEdges
  rw [List.map_congr_left (fun a _ => degreeOf_eq_filter contacts a)]
  exact sum_filter_length N (edgeList contacts) H

theorem idxList_flatten (N : Nat) (contacts : List Contact) :
    (idxList N contacts).flatten
      = List.range' 0 (((List.range N).map (degreeOf contacts)).sum) := by
  induction N with
  | zero => simp [idxList]
  | succ n ih =>
      unfold idxList at ih ⊢
      rw [List.range_succ, List.map_append, List.flatten_append, ih,
        List.map_append, List.sum_append]
      simp only [List.map_cons, List.map_nil, List.flatten_cons, List.flatten_nil,
        List.append_nil, List.sum_cons, List.sum_nil, Nat.add_zero]
      have hoff : offsetOf contacts n
          = ((List.range n).map (degreeOf contacts)).sum := rfl
      unfold idxRange
      rw [hoff]
      have := List.range'_append 0 (((List.range n).map (degreeOf contacts)).sum)
        (degreeOf contacts n) 1
      simpa [Nat.add_comm] using this

/-- C5: the per-node index ranges `idx_list[0], ..., idx_list[N-1]`
concatenate, in ascending node order, to exactly
`0, 1, ..., num_direct_edges - 1`: slot assignment is a contiguous
partition of the flat values array. -/
theorem claim_C5 (N : Nat) (contacts : List Contact)
    (H : ∀ e ∈ edgeList contacts, e.1 < N) :
    (idxList N contacts).flatten = List.range (numDirectEdges contacts) := by
  rw [idxList_flatten, sum_degree_eq N contacts H,
    List.range_eq_range' (numDirectEdges contacts)]

theorem claim_C5_witness :
    (idxList 2 scenarioContacts).flatten
      = List.range (numDirectEdges scenarioContacts) :=
  claim_C5 2 scenarioContacts (by decide)

end GSS

namespace GSS

theorem pairLe_trans {p q s : Nat × Nat} (h1 : pairLe p q) (h2 : pairLe q s) :
    pairLe p s := by
  unfold pairLe at h1 h2 ⊢
  omega

theorem pairLe_total (p q : Nat × Nat) : pairLe p q ∨ pairLe q p := by
  unfold pairLe
  omega

instance pairLe.isAntisymm : IsAntisymm (Nat × Nat) pairLe where
  antisymm p q hpq hqp := by
    obtain ⟨p1, p2⟩ := p
    obtain ⟨q1, q2⟩ := q
    unfold pairLe at hpq hqp
    rw [Prod.mk.injEq]
    simp only at hpq hqp
    omega

theorem pairwise_insertPair {p : Nat × Nat} {l : List (Nat × Nat)}
    (h : l.Pairwise pairLe) : (insertPair p l).Pairwise pairLe := by
  induction l with
  | nil => simp [insertPair]
  | cons q tl ih =>
      rw [List.pairwise_cons] at h
      unfold insertPair
      by_cases hpq : pairLe p q
      · rw [if_pos hpq, List.pairwise_cons]
        refine ⟨?_, List.pairwise_cons.mpr h⟩
        intro b hb
        rcases List.mem_cons.mp hb with rfl | hb2
        · exact hpq
        · exact pairLe_trans hpq (h.1 b hb2)
      · rw [if_neg hpq, List.pairwise_cons]
        refine ⟨?_, ih h.2⟩
        intro b hb
        rcases mem_insertPair.mp hb with rfl | hb2
        · exact (pairLe_total b q).resolve_left hpq
        · exact h.1 b hb2

theorem pairwise_sortPairs (l : List (Nat × Nat)) :
    (sortPairs l).Pairwise pairLe := by
  induction l with
  | nil => simp [sortPairs]
  | cons p tl ih =>
      unfold sortPairs
      exact pairwise_insertPair ih

theorem edgeList_sorted (contacts : List Contact) :
    (edgeList contacts).Pairwise pairLe :=
  (pairwise_sortPairs (symPairs contacts)).sublist
    (List.dedup_sublist (sortPairs (symPairs contacts)))

theorem edgeList_nodup (contacts : List Contact) :
    (edgeList contacts).Nodup :=
  List.nodup_dedup (sortPairs (symPairs contacts))

theorem edgeList_pairwise (contacts : List Contact) :
    (edgeList contacts).Pairwise pairLt :=
  (edgeList_sorted contacts).and (edgeList_nodup contacts)

theorem adjOf_sorted (contacts : List Contact) (a : Nat) :
    (adjOf contacts a).Pairwise (· < ·) := by
  unfold adjOf
  rw [List.pairwise_map]
  have hf : ((edgeList contacts).filter (fun e => e.1 = a)).Pairwise pairLt :=
    (edgeList_pairwise contacts).sublist
      (List.filter_sublist (edgeList contacts))
  apply hf.imp_of_mem
  intro p q hp hq hpq
  have hpa : p.1 = a := of_decide_eq_true (List.mem_filter.mp hp).2
  have hqa : q.1 = a := of_decide_eq_true (List.mem_filter.mp hq).2
  obtain ⟨p1, p2⟩ := p
  obtain ⟨q1, q2⟩ := q
  obtain ⟨hle, hne⟩ := hpq
  unfold pairLe at hle
  simp only at hpa hqa hle
  rw [Ne, Prod.mk.injEq] at hne
  simp only
  omega

theorem mem_flip_map {c : List Contact} {p : Nat × Nat} :
    p ∈ c.map (fun cc => (cc.j, cc.i)) ↔ (p.2, p.1) ∈ contactPairs c := by
  unfold contactPairs
  simp only [List.mem_map]
  constructor
  · rintro ⟨cc, hcc, rfl⟩
    exact ⟨cc, hcc, rfl⟩
  · rintro ⟨cc, hcc, heq⟩
    refine ⟨cc, hcc, ?_⟩
    obtain ⟨p1, p2⟩ := p
    rw [Prod.mk.injEq] at heq ⊢
    exact ⟨heq.2, heq.1⟩

theorem edgeList_ext {c1 c2 : List Contact}
    (H : ∀ p : Nat × Nat, p ∈ contactPairs c1 ↔ p ∈ contactPairs c2) :
    edgeList c1 = edgeList c2 := by
  have Hsym : ∀ p : Nat × Nat, p ∈ symPairs c1 ↔ p ∈ symPairs c2 := by
    intro p
    unfold symPairs
    simp only [List.mem_append]
    constructor
    · rintro (h | h)
      · exact Or.inl ((H p).mp h)
      · exact Or.inr (mem_flip_map.mpr ((H (p.2, p.1)).mp (mem_flip_map.mp h)))
    · rintro (h | h)
      · exact Or.inl ((H p).mpr h)
      · exact Or.inr (mem_flip_map.mpr ((H (p.2, p.1)).mpr (mem_flip_map.mp h)))
  have hsort1 : (edgeList c1).Sorted pairLe := edgeList_sorted c1
  have hsort2 : (edgeList c2).Sorted pairLe := edgeList_sorted c2
  exact List.eq_of_perm_of_sorted
    ((List.perm_ext_iff_of_nodup (edgeList_nodup c1) (edgeList_nodup c2)).mpr
      (fun a => by rw [mem_edgeList, mem_edgeList]; exact Hsym a))
    hsort1 hsort2

/-- C10: every adjacency bucket is strictly increasing (senders sorted
ascending, no duplicates), and the whole topology — adjacency, index
lists, degrees — depends only on the set of (sender, receiver) pairs of the
contacts, not on their order or multiplicity; the ascending sender order
is thereby also the stacking order of `get_neigh_i`. -/
theorem claim_C10 (N : Nat) (c1 c2 : List Contact) (j : Nat)
    (Hsame : ∀ p : Nat × Nat, p ∈ contactPairs c1 ↔ p ∈ contactPairs c2) :
    ((adjList N c1).getD j []).Pairwise (· < ·)
    ∧ adjList N c1 = adjList N c2
    ∧ idxList N c1 = idxList N c2
    ∧ (adjList N c1).map List.length = (adjList N c2).map List.length := by
  have hedge := edgeList_ext Hsame
  have hadj : adjList N c1 = adjList N c2 := by
    unfold adjList adjOf
    rw [hedge]
  have hidx : idxList N c1 = idxList N c2 := by
    unfold idxList idxRange offsetOf degreeOf adjOf
    rw [hedge]
  refine ⟨?_, hadj, hidx, by rw [hadj]⟩
  by_cases hj : j < N
  · rw [adjList_getD N c1 hj]
    exact adjOf_sorted c1 j
  · rw [List.getD_eq_default _ _ (by simp [adjList]; omega)]
    exact List.Pairwise.nil

theorem claim_C10_witness :
    ((adjList 2 scenarioContacts).getD 1 []).Pairwise (· < ·)
    ∧ adjList 2 scenarioContacts = adjList 2 (scenarioContacts ++ scenarioContacts)
    ∧ idxList 2 scenarioContacts = idxList 2 (scenarioContacts ++ scenarioContacts)
    ∧ (adjList 2 scenarioContacts).map List.length
        = (adjList 2 (scenarioContacts ++ scenarioContacts)).map List.length :=
  claim_C10 2 scenarioContacts (scenarioContacts ++ scenarioContacts) 1
    (by intro p; simp [contactPairs, scenarioContacts])

end GSS

namespace GSS

/-- The claim is false as stated: on the tensor built from an empty
contact list (here with `N = 1`), `get_idx_ij(0, 0)` fails with
`ValueError` raised by `list.index` — and `ValueError` is not a
`LookupError` in Python's exception hierarchy. -/
theorem claim_C3_counterexample :
    get_idx_ij 1 [] 0 0 = .error .valueError
    ∧ PyErr.isLookupError .valueError = false :=
  ⟨by with_unfolding_all rfl, rfl⟩

/-- C3 (amended): for every tensor and every pair `(i, j)` whose edge
`i → j` does not exist, with receiver `j` in range, `lookup_index` and
`lookup_matrix` fail with a `ValueError` (from `list.index`), which is
not a `LookupError`; on the empty-contact tensor this covers every
`(i, j)` with `j < N`.  (Only an out-of-range receiver `j ≥ N` gives an
`IndexError`, the sole `LookupError` the accessors can raise.) -/
theorem claim_C3 {α : Type} [Inhabited α] (N : Nat) (contacts : List Contact)
    (values : List α) (i j : Nat)
    (Hj : j < N) (Hmem : i ∉ adjOf contacts j) :
    get_idx_ij N contacts i j = .error .valueError
    ∧ get_ij N contacts values i j = .error .valueError
    ∧ get_idx_ij N [] i j = .error .valueError
    ∧ PyErr.isLookupError .valueError = false := by
  have h1 : get_idx_ij N contacts i j = .error .valueError := by
    unfold get_idx_ij
    rw [if_pos Hj, if_neg Hmem]
  have hempty : adjOf ([] : List Contact) j = [] := rfl
  refine ⟨h1, ?_, ?_, rfl⟩
  · unfold get_ij
    rw [h1]
  · unfold get_idx_ij
    rw [if_pos Hj, if_neg (by rw [hempty]; exact List.not_mem_nil i)]

theorem claim_C3_witness :
    (1 : Nat) < 2 ∧ (1 : Nat) ∉ adjOf scenarioContacts 1
    ∧ (get_idx_ij 2 scenarioContacts 1 1 = .error .valueError
      ∧ get_ij 2 scenarioContacts [10, 20] 1 1 = .error .valueError
      ∧ get_idx_ij 2 [] 1 1 = .error .valueError
      ∧ PyErr.isLookupError .valueError = false) :=
  ⟨by omega, by decide,
   claim_C3 2 scenarioContacts [10, 20] 1 1 (by omega) (by decide)⟩

end GSS

namespace GSS

theorem findIdx_lt_length_of_mem {i : Nat} {l : List Nat} (h : i ∈ l) :
    l.findIdx (fun x => x = i) < l.length := by
  induction l with
  | nil => cases h
  | cons x tl ih =>
      by_cases hx : x = i
      · simp [List.findIdx_cons, hx]
      · have h2 : i ∈ tl := by
          rcases List.mem_cons.mp h with rfl | h2
          · exact absurd rfl hx
          · exact h2
        simp only [List.findIdx_cons, List.length_cons]
        rw [show decide (x = i) = false from decide_eq_false hx]
        simpa using ih h2

theorem idxRange_getD (contacts : List Contact) (j k : Nat)
    (hk : k < degreeOf contacts j) :
    (idxRange contacts j).getD k 0 = offsetOf contacts j + k := by
  unfold idxRange
  rw [List.getD_eq_getElem _ _ (by simpa using hk)]
  exact List.getElem_range'_1 k (by simpa using hk)

theorem offsetOf_succ (contacts : List Contact) (j : Nat) :
    offsetOf contacts (j + 1) = offsetOf contacts j + degreeOf contacts j := by
  unfold offsetOf
  rw [List.range_succ, List.map_append, List.sum_append]
  simp

theorem offsetOf_sum_le (contacts : List Contact) {j N : Nat} (hj : j < N) :
    offsetOf contacts j + degreeOf contacts j
      ≤ ((List.range N).map (degreeOf contacts)).sum := by
  rw [← offsetOf_succ]
  have hstep : ∀ n m : Nat, m ≤ n →
      ((List.range m).map (degreeOf contacts)).sum
        ≤ ((List.range n).map (degreeOf contacts)).sum := by
    intro n
    induction n with
    | zero =>
        intro m hm
        have hm0 : m = 0 := by omega
        subst hm0
        exact Nat.le_refl _
    | succ nn ihn =>
        intro m hm
        by_cases hcase : m = nn + 1
        · subst hcase; exact Nat.le_refl _
        · have h2 := ihn m (by omega)
          rw [List.range_succ, List.map_append, List.sum_append]
          omega
  have h2 := hstep N (j + 1) hj
  unfold offsetOf
  exact h2

theorem slot_lt_num (N : Nat) (contacts : List Contact) {j k : Nat}
    (hj : j < N) (hk : k < degreeOf contacts j)
    (H : ∀ e ∈ edgeList contacts, e.1 < N) :
    offsetOf contacts j + k < numDirectEdges contacts := by
  have h1 := offsetOf_sum_le contacts hj
  rw [sum_degree_eq N contacts H] at h1
  omega

theorem get_neigh_i_entry {α : Type} [Inhabited α] (N : Nat)
    (contacts : List Contact) (values : List α) {j pos : Nat}
    (Hj : j < N) (hpos : pos < degreeOf contacts j)
    (Hnodes : ∀ e ∈ edgeList contacts, e.1 < N)
    (Hlen : values.length = numDirectEdges contacts) :
    (get_neigh_i N contacts values j).map (fun ns => ns.getD pos default)
      = .ok (values.getD (offsetOf contacts j + pos) default) := by
  unfold get_neigh_i
  rw [if_pos Hj]
  have hbound : ∀ k ∈ idxRange contacts j, k < values.length := by
    intro k hk
    unfold idxRange at hk
    have h1 := List.mem_range'_1.mp hk
    have h2 := slot_lt_num N contacts (k := k - offsetOf contacts j) Hj
      (by omega) Hnodes
    omega
  have hall : (idxRange contacts j).all
      (fun k => k < values.length) = true := by
    rw [List.all_eq_true]
    intro k hk
    exact decide_eq_true (hbound k hk)
  rw [if_pos hall]
  have hlen2 : pos < (idxRange contacts j).length := by
    unfold idxRange
    simpa using hpos
  show Except.ok (((idxRange contacts j).map
      (fun k => values.getD k default)).getD pos default) = _
  rw [List.getD_eq_getElem _ _ (by simpa using hlen2), List.getElem_map]
  rw [show (idxRange contacts j)[pos] = offsetOf contacts j + pos from
    List.getElem_range'_1 pos (by simpa using hpos)]

/-- C8 (amended): for every existing edge `(i, j)` on a well-formed
tensor, `lookup_matrix(i, j)` reads exactly entry "position of `i` in
`adjacency[j]`" of `neighbors_matrices(j)`, and an in-place write through
the flat slot that `lookup_index(i, j)` returns (the view `lookup_matrix`
hands out) is visible through both accessors; but `neighbors_matrices`
returns a copy (NumPy advanced indexing), so an in-place write into its
returned stack leaves `values` unchanged and is invisible to
`lookup_matrix`. -/
theorem claim_C8 {α : Type} [Inhabited α] (N : Nat) (contacts : List Contact)
    (values : List α) (i j idx : Nat) (mNew : α)
    (Hj : j < N) (Hmem : i ∈ adjOf contacts j)
    (Hlen : values.length = numDirectEdges contacts)
    (Hnodes : ∀ e ∈ edgeList contacts, e.1 < N)
    (Hidx : get_idx_ij N contacts i j = .ok idx) :
    (get_neigh_i N contacts values j).map
        (fun ns => ns.getD ((adjOf contacts j).findIdx (fun x => x = i)) default)
      = get_ij N contacts values i j
    ∧ get_ij N contacts (values.set idx mNew) i j = .ok mNew
    ∧ (get_neigh_i N contacts (values.set idx mNew) j).map
        (fun ns => ns.getD ((adjOf contacts j).findIdx (fun x => x = i)) default)
      = .ok mNew
    ∧ get_ij N contacts
        (valuesAfterNeighWrite values
          ((adjOf contacts j).findIdx (fun x => x = i)) mNew) i j
      = get_ij N contacts values i j := by
  have hposlt : (adjOf contacts j).findIdx (fun x => x = i)
      < degreeOf contacts j := findIdx_lt_length_of_mem Hmem
  have hidx_eq : idx = offsetOf contacts j
      + (adjOf contacts j).findIdx (fun x => x = i) := by
    unfold get_idx_ij at Hidx
    rw [if_pos Hj, if_pos Hmem,
      idxRange_getD contacts j _ hposlt] at Hidx
    exact (Except.ok.inj Hidx).symm
  have hidxlt : idx < values.length := by
    rw [Hlen, hidx_eq]
    exact slot_lt_num N contacts Hj hposlt Hnodes
  have hlen2 : (values.set idx mNew).length = numDirectEdges contacts := by
    rw [List.length_set]
    exact Hlen
  have hgij : get_ij N contacts values i j
      = .ok (values.getD idx default) := by
    unfold get_ij
    rw [Hidx]
    show (if idx < values.length
        then (Except.ok (values.getD idx default) : Except PyErr α)
        else .error .indexError)
      = .ok (values.getD idx default)
    rw [if_pos hidxlt]
  have hgij2 : get_ij N contacts (values.set idx mNew) i j = .ok mNew := by
    unfold get_ij
    rw [Hidx]
    show (if idx < (values.set idx mNew).length
        then (Except.ok ((values.set idx mNew).getD idx default) : Except PyErr α)
        else .error .indexError)
      = .ok mNew
    rw [if_pos (by rw [List.length_set]; exact hidxlt)]
    congr 1
    rw [List.getD_eq_getElem _ _ (by rw [List.length_set]; exact hidxlt)]
    rw [List.getElem_set_self]
  refine ⟨?_, hgij2, ?_, rfl⟩
  · rw [hgij, get_neigh_i_entry N contacts values Hj hposlt Hnodes Hlen,
      ← hidx_eq]
  · rw [get_neigh_i_entry N contacts (values.set idx mNew) Hj hposlt Hnodes
      hlen2, ← hidx_eq]
    congr 1
    rw [List.getD_eq_getElem _ _ (by rw [List.length_set]; exact hidxlt)]
    rw [List.getElem_set_self]

/-- The claim is false as stated: on the scenario tensor with values
`[10, 20]`, `neighbors_matrices(1)` returns the copied stack `[20]`;
writing `99` into its entry 0 leaves the tensor's `values` at `[10, 20]`
(advanced indexing copies), so `lookup_matrix(0, 1)` still reads `20`,
not the written `99` — the write through `neighbors_matrices`' result is
not visible through `lookup_matrix`. -/
theorem claim_C8_counterexample :
    get_neigh_i 2 scenarioContacts [10, 20] 1 = .ok [20]
    ∧ get_ij 2 scenarioContacts [10, 20] 0 1 = .ok 20
    ∧ valuesAfterNeighWrite [10, 20] 0 (99 : Nat) = [10, 20]
    ∧ get_ij 2 scenarioContacts
        (valuesAfterNeighWrite [10, 20] 0 (99 : Nat)) 0 1 ≠ .ok 99 := by
  refine ⟨by with_unfolding_all rfl, by with_unfolding_all rfl, rfl, ?_⟩
  intro h
  have h2 : (Except.ok 20 : Except PyErr Nat) = .ok 99 := by
    rw [show get_ij 2 scenarioContacts
        (valuesAfterNeighWrite [10, 20] 0 (99 : Nat)) 0 1
        = (.ok 20 : Except PyErr Nat) from by with_unfolding_all rfl] at h
    exact h
  exact absurd (Except.ok.inj h2) (by decide)

theorem claim_C8_witness :
    (1 : Nat) < 2 ∧ (0 : Nat) ∈ adjOf scenarioContacts 1
    ∧ ((get_neigh_i 2 scenarioContacts [10, 20] 1).map
          (fun ns => ns.getD ((adjOf scenarioContacts 1).findIdx
            (fun x => x = 0)) default)
        = get_ij 2 scenarioContacts [10, 20] 0 1
      ∧ get_ij 2 scenarioContacts ([10, 20].set 1 99) 0 1 = .ok 99
      ∧ (get_neigh_i 2 scenarioContacts ([10, 20].set 1 99) 1).map
          (fun ns => ns.getD ((adjOf scenarioContacts 1).findIdx
            (fun x => x = 0)) default)
        = .ok 99
      ∧ get_ij 2 scenarioContacts
          (valuesAfterNeighWrite [10, 20]
            ((adjOf scenarioContacts 1).findIdx (fun x => x = 0)) 99) 0 1
        = get_ij 2 scenarioContacts [10, 20] 0 1) :=
  ⟨by omega, by decide,
   claim_C8 2 scenarioContacts [10, 20] 0 1 1 99 (by omega) (by decide)
     (by decide) (by decide) (by with_unfolding_all rfl)⟩

end GSS
